import Mathlib

/-!
Verification of the hive-stats aggregation and insight engine.

The definitions below are a shallow embedding of the repository:
  - the weekly aggregation SQL of the ingestion script (fetchWeeklyStats,
    saveToDatabase in the data-fetch module),
  - the insight queries of server.ts (getWeeklyStats join, year-over-year,
    correlation, peak row, last-complete-week row, activity distribution).

Modelling conventions:
  - SQL TEXT dates in ISO form are modelled as a pair (year, day-of-year),
    ordered lexicographically; adding 7 days is calendar addition in that
    representation (Gregorian leap rule for the year length).
  - SQLite REAL arithmetic is modelled over the rationals.
  - JavaScript number edge values (Infinity, NaN) produced by division by
    zero, and JavaScript truthiness, are modelled by the JSNum type.
  - ORDER BY is modelled by a stable insertion sort on the sort key; for a
    query with a non-unique sort key (the peak-users query) ties are kept in
    table scan order, which is the deterministic stable-sort reading.
  - A SQL query that returns no row where the server then dereferences the
    row (a crash at runtime) is modelled by an Option-valued result of none.
-/

/-- A calendar date, as year plus zero-based day of year. -/
structure Date where
  year : Nat
  doy : Nat
deriving DecidableEq, Repr

/-- Strict calendar order on dates. -/
def dateLt (a b : Date) : Prop :=
  a.year < b.year ∨ (a.year = b.year ∧ a.doy < b.doy)

/-- Non-strict calendar order on dates. -/
def dateLe (a b : Date) : Prop :=
  a.year < b.year ∨ (a.year = b.year ∧ a.doy ≤ b.doy)

instance (a b : Date) : Decidable (dateLt a b) := by
  unfold dateLt; infer_instance

instance (a b : Date) : Decidable (dateLe a b) := by
  unfold dateLe; infer_instance

/-- Number of days in a calendar year (Gregorian leap rule). -/
def daysInYear (y : Nat) : Nat :=
  if (y % 4 = 0 ∧ ¬ y % 100 = 0) ∨ y % 400 = 0 then 366 else 365

/-- The SQLite expression date(d, "+7 days"): calendar addition of a week. -/
def addDays7 (d : Date) : Date :=
  if d.doy + 7 < daysInYear d.year then ⟨d.year, d.doy + 7⟩
  else ⟨d.year + 1, d.doy + 7 - daysInYear d.year⟩

/-- The two asset symbols stored in the price_history table. -/
inductive Coin where
  | steem
  | hive
deriving DecidableEq, Repr

/-- One row of the price_history table (primary key: date). -/
structure PricePoint where
  date : Date
  coin : Coin
  price : ℚ
deriving DecidableEq, Repr

/-- One raw content-creation event, as consumed by the aggregation query.
The grouping key DATEPART(WEEK, created) of the source SQL is carried as
the precomputed week number of the event; the year is fixed by the range
filter of the fetch, so it is a parameter of the aggregation. -/
structure RawAction where
  author : String
  week : Nat
  isPost : Bool
deriving DecidableEq, Repr

/-- One row of the weekly_stats table (primary key: year, week). -/
structure WeeklyStats where
  year : Nat
  week : Nat
  week_start : Date
  total_users : Nat
  total_posts : Nat
  total_comments : Nat
  ultra_active_users : Nat
  very_active_users : Nat
  active_users : Nat
  occasional_users : Nat
  low_activity_users : Nat
deriving DecidableEq, Repr

/-- The (year, week) primary key of a weekly_stats row. -/
def keyOf (w : WeeklyStats) : Nat × Nat := (w.year, w.week)

/-- Lexicographic strict order on (year, week) keys. -/
def keyLt (a b : Nat × Nat) : Prop :=
  a.1 < b.1 ∨ (a.1 = b.1 ∧ a.2 < b.2)

/-- Lexicographic non-strict order on (year, week) keys. -/
def keyLe (a b : Nat × Nat) : Prop :=
  a.1 < b.1 ∨ (a.1 = b.1 ∧ a.2 ≤ b.2)

instance (a b : Nat × Nat) : Decidable (keyLt a b) := by
  unfold keyLt; infer_instance

instance (a b : Nat × Nat) : Decidable (keyLe a b) := by
  unfold keyLe; infer_instance

/-! ## The aggregation query of the ingestion script

Embedding of the fetchWeeklyStats SQL: raw events are grouped per
(author, week); posts (empty parent author) and comments are counted
separately; per-week rows aggregate the distinct authors and classify each
author by total weekly activity into the five fixed tiers. -/

/-- The raw events falling in week w (the per-week group of the SQL). -/
def actionsOfWeek (raw : List RawAction) (w : Nat) : List RawAction :=
  raw.filter (fun r => decide (r.week = w))

/-- The distinct authors active in week w. -/
def weekAuthors (raw : List RawAction) (w : Nat) : List String :=
  ((actionsOfWeek raw w).map (fun r => r.author)).dedup

/-- Posts of one author in one week (rows with empty parent author). -/
def postsOf (raw : List RawAction) (a : String) (w : Nat) : Nat :=
  ((actionsOfWeek raw w).filter (fun r => decide (r.author = a) && r.isPost)).length

/-- Comments of one author in one week (rows with a parent author). -/
def commentsOf (raw : List RawAction) (a : String) (w : Nat) : Nat :=
  ((actionsOfWeek raw w).filter (fun r => decide (r.author = a) && !r.isPost)).length

/-- Total weekly activity of one author: posts plus comments. -/
def activityOf (raw : List RawAction) (a : String) (w : Nat) : Nat :=
  postsOf raw a w + commentsOf raw a w

/-- The distinct week numbers with at least one event, ascending
(the GROUP BY week with ORDER BY week of the SQL). -/
def weeksOf (raw : List RawAction) : List Nat :=
  List.insertionSort (fun a b => a ≤ b) ((raw.map (fun r => r.week)).dedup)

/-- DATEADD(WEEK, week - 1, Jan 1 of the year): the derived week start. -/
def weekStartOf (year w : Nat) : Date := ⟨year, 7 * (w - 1)⟩

/-- Embedding of the fetchWeeklyStats aggregation query: one WeeklyStats
row per week that has at least one raw event in the fetched year. -/
def fetchWeeklyStats (year : Nat) (raw : List RawAction) : List WeeklyStats :=
  (weeksOf raw).map (fun w =>
    let authors := weekAuthors raw w
    { year := year
      week := w
      week_start := weekStartOf year w
      total_users := authors.length
      total_posts := (authors.map (fun a => postsOf raw a w)).sum
      total_comments := (authors.map (fun a => commentsOf raw a w)).sum
      ultra_active_users :=
        (authors.filter (fun a => decide (50 ≤ activityOf raw a w))).length
      very_active_users :=
        (authors.filter (fun a =>
          decide (20 ≤ activityOf raw a w ∧ activityOf raw a w < 50))).length
      active_users :=
        (authors.filter (fun a =>
          decide (10 ≤ activityOf raw a w ∧ activityOf raw a w < 20))).length
      occasional_users :=
        (authors.filter (fun a =>
          decide (3 ≤ activityOf raw a w ∧ activityOf raw a w < 10))).length
      low_activity_users :=
        (authors.filter (fun a =>
          decide (1 ≤ activityOf raw a w ∧ activityOf raw a w < 3))).length })

/-! ## The weekly_stats store and saveToDatabase

The store is modelled as a map from the (year, week) primary key to the
stored row; INSERT OR REPLACE is replace-on-conflict by that key. -/

/-- The weekly_stats table, keyed by primary key. -/
def Store : Type := Nat × Nat → Option WeeklyStats

/-- INSERT OR REPLACE of a single row. -/
def upsertRow (s : Store) (r : WeeklyStats) : Store :=
  fun k => if (r.year, r.week) = k then some r else s k

/-- Embedding of saveToDatabase: upsert every aggregated row in order. -/
def saveToDatabase (s : Store) (stats : List WeeklyStats) : Store :=
  stats.foldl upsertRow s

/-! ## JavaScript numeric model

The server computes in JavaScript over IEEE numbers; what the claims need of
that arithmetic is the behaviour of division by zero (Infinity and NaN),
truthiness, and decimal rounding via toFixed. JSNum models exactly that
fragment, with finite values as rationals. -/

/-- A JavaScript number: finite, signed infinity, or NaN. -/
inductive JSNum where
  | num (q : ℚ)
  | inf (pos : Bool)
  | nan
deriving DecidableEq, Repr

/-- JavaScript division of two finite numbers, with the zero-denominator
results Infinity, -Infinity and NaN. -/
def jsDivQ (a b : ℚ) : JSNum :=
  if b = 0 then (if a = 0 then JSNum.nan else JSNum.inf (decide (0 < a)))
  else JSNum.num (a / b)

/-- JavaScript multiplication by the positive constant 100. -/
def jsMul100 : JSNum → JSNum
  | JSNum.num q => JSNum.num (q * 100)
  | JSNum.inf s => JSNum.inf s
  | JSNum.nan => JSNum.nan

/-- JavaScript truthiness of a number: 0 and NaN are falsy. -/
def jsTruthy : JSNum → Bool
  | JSNum.num q => decide (q ≠ 0)
  | JSNum.inf _ => true
  | JSNum.nan => false

/-- Rounding to one decimal place (Number(x.toFixed(1))). -/
def round1 (q : ℚ) : ℚ := (round (q * 10) : ℤ) / 10

/-- Rounding to four decimal places (Number(x.toFixed(4))). -/
def round4 (q : ℚ) : ℚ := (round (q * 10000) : ℤ) / 10000

/-- Number(x.toFixed(1)) on a JavaScript number: rounds finite values,
fixes Infinity and NaN. -/
def jsToFixed1 : JSNum → JSNum
  | JSNum.num q => JSNum.num (round1 q)
  | x => x

/-! ## The weekly join of server.ts (getWeeklyStats)

LEFT JOIN of price_history onto weekly_stats over the 7-day window
starting at week_start, with the hard coin cutover on the year column of
the weekly_stats row, then AVG(price_usd) per (year, week) group; NULL
when no price row matches. -/

/-- The coin chosen by the join condition for a weekly row of this year. -/
def coinFor (year : Nat) : Coin := if year < 2020 then Coin.steem else Coin.hive

/-- AVG(price_usd) over price rows of one coin inside one 7-day window
[ws, ws + 7 days); none when no row matches (SQL NULL). -/
def averagePriceInWindow (ph : List PricePoint) (ws : Date) (c : Coin) : Option ℚ :=
  let sel := ph.filter (fun p =>
    decide (dateLe ws p.date) && decide (dateLt p.date (addDays7 ws)) &&
    decide (p.coin = c))
  if sel.isEmpty then none
  else some ((sel.map (fun p => p.price)).sum / (sel.length : ℚ))

/-- Ascending (year, week) order on weekly rows, as a sort relation. -/
def rowLE (a b : WeeklyStats) : Prop := keyLe (keyOf a) (keyOf b)

instance (a b : WeeklyStats) : Decidable (rowLE a b) := by
  unfold rowLE; infer_instance

instance : IsTotal WeeklyStats rowLE where
  total a b := by unfold rowLE keyLe keyOf; omega

instance : IsTrans WeeklyStats rowLE where
  trans a b c := by unfold rowLE keyLe keyOf; omega

/-- Embedding of the getWeeklyStats query: every stored weekly row, in
ascending (year, week) order, paired with its window price average. -/
def getWeeklyStats (store : List WeeklyStats) (ph : List PricePoint) :
    List (WeeklyStats × Option ℚ) :=
  (List.insertionSort rowLE store).map (fun w =>
    (w, averagePriceInWindow ph w.week_start (coinFor w.year)))

/-! ## calculateCorrelation (server.ts) -/

/-- n * sum(x*y) - sum(x) * sum(y), the Pearson numerator. -/
def corrNum (x y : List ℚ) : ℚ :=
  (x.length : ℚ) * ((x.zip y).map (fun p => p.1 * p.2)).sum - x.sum * y.sum

/-- n * sum(x^2) - sum(x)^2, one factor under the Pearson square root. -/
def corrDev (x : List ℚ) : ℚ :=
  (x.length : ℚ) * (x.map (fun a => a * a)).sum - x.sum * x.sum

/-- Embedding of calculateCorrelation: returns 0 on an empty or
mismatched input, and 0 when the square-root denominator is zero. -/
noncomputable def calculateCorrelation (x y : List ℚ) : ℝ :=
  if x.length = 0 ∨ x.length ≠ y.length then 0
  else
    let denominator : ℝ := Real.sqrt ((corrDev x * corrDev y : ℚ) : ℝ)
    if denominator = 0 then 0 else ((corrNum x y : ℚ) : ℝ) / denominator

/-- The weeks admitted to the correlation by server.ts: price average
present and positive. -/
def dataWithPrice (store : List WeeklyStats) (ph : List PricePoint) :
    List (WeeklyStats × Option ℚ) :=
  (getWeeklyStats store ph).filter (fun r =>
    match r.2 with
    | some p => decide (0 < p)
    | none => false)

/-- The price vector passed to calculateCorrelation. -/
def pricesVec (store : List WeeklyStats) (ph : List PricePoint) : List ℚ :=
  (dataWithPrice store ph).map (fun r => r.2.getD 0)

/-- The user-count vector passed to calculateCorrelation. -/
def usersVec (store : List WeeklyStats) (ph : List PricePoint) : List ℚ :=
  (dataWithPrice store ph).map (fun r => (r.1.total_users : ℚ))

/-- The price and user correlation computed by getStats. -/
noncomputable def priceUserCorrelation (store : List WeeklyStats)
    (ph : List PricePoint) : ℝ :=
  calculateCorrelation (pricesVec store ph) (usersVec store ph)

/-! ## Year-over-year view (server.ts getStats) -/

/-- The distinct years present in the store, ascending
(GROUP BY year ORDER BY year). -/
def yearsOf (store : List WeeklyStats) : List Nat :=
  List.insertionSort (fun a b => a ≤ b) ((store.map (fun w => w.year)).dedup)

/-- The stored weekly rows of one year. -/
def weeksOfYear (store : List WeeklyStats) (y : Nat) : List WeeklyStats :=
  store.filter (fun w => decide (w.year = y))

/-- AVG(total_users) over the weekly rows of one year. -/
def avgUsersOfYear (store : List WeeklyStats) (y : Nat) : ℚ :=
  (((weeksOfYear store y).map (fun w => (w.total_users : ℚ))).sum) /
    ((weeksOfYear store y).length : ℚ)

/-- SUM(total_posts) over the weekly rows of one year. -/
def postsOfYear (store : List WeeklyStats) (y : Nat) : Nat :=
  ((weeksOfYear store y).map (fun w => w.total_posts)).sum

/-- SUM(total_comments) over the weekly rows of one year. -/
def commentsOfYear (store : List WeeklyStats) (y : Nat) : Nat :=
  ((weeksOfYear store y).map (fun w => w.total_comments)).sum

/-- The yearly price query of getStats: AVG(price_usd) over every
price_history row whose date falls in the calendar year, with no coin
filter, passed through the truthiness guard and toFixed(4); the zero
average and the empty average both come out as null. -/
def avgPriceOfYearCode (ph : List PricePoint) (y : Nat) : Option ℚ :=
  let sel := ph.filter (fun p => decide (p.date.year = y))
  if sel.isEmpty then none
  else
    let m := (sel.map (fun p => p.price)).sum / (sel.length : ℚ)
    if m = 0 then none else some (round4 m)

/-- The changePercent of one year given the previous year average
(none for the first year): the raw JavaScript value is passed through a
truthiness check before toFixed(1), so a computed 0 and NaN become null
while Infinity survives. -/
def changePercent (prev : Option ℚ) (cur : ℚ) : Option JSNum :=
  match prev with
  | none => none
  | some p =>
    let c := jsMul100 (jsDivQ (cur - p) p)
    if jsTruthy c then some (jsToFixed1 c) else none

/-- One row of the year-over-year response. -/
structure YoYRow where
  year : Nat
  avgWeeklyUsers : ℤ
  avgPrice : Option ℚ
  totalPosts : Nat
  totalComments : Nat
  changePercent : Option JSNum
deriving DecidableEq, Repr

/-- The row built for one year in the yearOverYear map of getStats. -/
def mkYoYRow (store : List WeeklyStats) (ph : List PricePoint)
    (prev : Option ℚ) (y : Nat) : YoYRow :=
  { year := y
    avgWeeklyUsers := round (avgUsersOfYear store y)
    avgPrice := avgPriceOfYearCode ph y
    totalPosts := postsOfYear store y
    totalComments := commentsOfYear store y
    changePercent := changePercent prev (avgUsersOfYear store y) }

/-- The yearOverYear map of getStats, threading each year average to the
next year as the previous-year reference. -/
def yoyAux (store : List WeeklyStats) (ph : List PricePoint) :
    Option ℚ → List Nat → List YoYRow
  | _, [] => []
  | prev, y :: ys =>
    mkYoYRow store ph prev y ::
      yoyAux store ph (some (avgUsersOfYear store y)) ys

/-- The year-over-year insight view of getStats. -/
def yearOverYear (store : List WeeklyStats) (ph : List PricePoint) :
    List YoYRow :=
  yoyAux store ph none (yearsOf store)

/-! ## Peak week and last complete week (server.ts getStats) -/

/-- Fold keeping the first row of maximal total_users: the deterministic
stable reading of ORDER BY total_users DESC LIMIT 1 over the table scan. -/
def peakGo (b : WeeklyStats) : List WeeklyStats → WeeklyStats
  | [] => b
  | c :: l => if b.total_users < c.total_users then peakGo c l else peakGo b l

/-- The peak-users query; none models the empty-table crash of getStats. -/
def peakRow : List WeeklyStats → Option WeeklyStats
  | [] => none
  | a :: l => some (peakGo a l)

/-- Descending (year, week) order on weekly rows, as a sort relation. -/
def rowGE (a b : WeeklyStats) : Prop := keyLe (keyOf b) (keyOf a)

instance (a b : WeeklyStats) : Decidable (rowGE a b) := by
  unfold rowGE; infer_instance

instance : IsTotal WeeklyStats rowGE where
  total a b := by unfold rowGE keyLe keyOf; omega

instance : IsTrans WeeklyStats rowGE where
  trans a b c := by unfold rowGE keyLe keyOf; omega

/-- The last-complete-week query: ORDER BY year DESC, week DESC LIMIT 1
OFFSET 1. A none result models the null row dereference crash of getStats,
the failure surfaced when fewer than two rows exist. -/
def lastCompleteWeek (store : List WeeklyStats) : Option WeeklyStats :=
  ((List.insertionSort rowGE store).drop 1).head?

/-! ## Activity distribution (server.ts getStats) -/

/-- The five tier sums of the distribution query. -/
structure TierSums where
  ultra : Nat
  very : Nat
  active : Nat
  occasional : Nat
  low : Nat
deriving DecidableEq, Repr

/-- SUM of each tier column over the whole weekly_stats table. -/
def tierSums (rows : List WeeklyStats) : TierSums :=
  { ultra := (rows.map (fun w => w.ultra_active_users)).sum
    very := (rows.map (fun w => w.very_active_users)).sum
    active := (rows.map (fun w => w.active_users)).sum
    occasional := (rows.map (fun w => w.occasional_users)).sum
    low := (rows.map (fun w => w.low_activity_users)).sum }

/-- The grand total of the five tier sums. -/
def grandTotal (t : TierSums) : Nat :=
  t.ultra + t.very + t.active + t.occasional + t.low

/-- One tier percentage: (tier / totalTiers) * 100 with toFixed(1),
in JavaScript arithmetic. -/
def tierPct (t tot : Nat) : JSNum :=
  jsToFixed1 (jsMul100 (jsDivQ (t : ℚ) (tot : ℚ)))

/-- The five tier percentages of the response. -/
structure TierPcts where
  ultraActive : JSNum
  veryActive : JSNum
  active : JSNum
  occasional : JSNum
  lowActivity : JSNum
deriving DecidableEq, Repr

/-- The activityDistribution object of getStats. -/
def activityDistribution (rows : List WeeklyStats) : TierPcts :=
  let t := tierSums rows
  let tot := grandTotal t
  { ultraActive := tierPct t.ultra tot
    veryActive := tierPct t.very tot
    active := tierPct t.active tot
    occasional := tierPct t.occasional tot
    lowActivity := tierPct t.low tot }

/-! ## Specification-side formulas, for refinement comparison -/

/-- Written from the specification wording for the year-over-year price:
the mean across the weeks of the year of the per-week window averages
(a mean of means), each week using only the coin of the cutover policy;
absent when no week of the year has a price average. -/
def specYearAvgPriceMeanOfMeans (store : List WeeklyStats)
    (ph : List PricePoint) (y : Nat) : Option ℚ :=
  let avgs := (weeksOfYear store y).filterMap
    (fun w => averagePriceInWindow ph w.week_start (coinFor y))
  if avgs.isEmpty then none else some (avgs.sum / (avgs.length : ℚ))

/-- Written from the specification wording for the correlation: the
Pearson coefficient of the paired vectors, defined as 0 whenever the
product under the square root is zero (zero variance in either vector,
including the empty case). -/
noncomputable def pearsonSpec (x y : List ℚ) : ℝ :=
  if corrDev x * corrDev y = 0 then 0
  else ((corrNum x y : ℚ) : ℝ) / Real.sqrt ((corrDev x * corrDev y : ℚ) : ℝ)

/-! ## Helper lemmas -/

/-- Applying saveToDatabase resolves each key to the last row of the batch
with that key, and to the previous store content otherwise. -/
def findLastKey (l : List WeeklyStats) (k : Nat × Nat) : Option WeeklyStats :=
  match l with
  | [] => none
  | r :: t =>
    match findLastKey t k with
    | some x => some x
    | none => if (r.year, r.week) = k then some r else none

theorem saveToDatabase_apply (l : List WeeklyStats) :
    ∀ (s : Store) (k : Nat × Nat),
      saveToDatabase s l k =
        match findLastKey l k with
        | some r => some r
        | none => s k := by
  induction l with
  | nil => intro s k; rfl
  | cons r t ih =>
    intro s k
    show saveToDatabase (upsertRow s r) t k = _
    rw [ih]
    show _ = (match
        (match findLastKey t k with
         | some x => some x
         | none => if (r.year, r.week) = k then some r else none) with
      | some r => some r
      | none => s k)
    cases h : findLastKey t k with
    | some x => rfl
    | none =>
      show upsertRow s r k = _
      unfold upsertRow
      by_cases hk : (r.year, r.week) = k <;> simp [hk]

theorem mem_weekAuthors {raw : List RawAction} {w : Nat} {a : String}
    (ha : a ∈ weekAuthors raw w) : ∃ r ∈ raw, r.week = w ∧ r.author = a := by
  unfold weekAuthors actionsOfWeek at ha
  rw [List.mem_dedup, List.mem_map] at ha
  obtain ⟨r, hr, hauth⟩ := ha
  rw [List.mem_filter, decide_eq_true_eq] at hr
  exact ⟨r, hr.1, hr.2, hauth⟩

theorem one_le_activityOf {raw : List RawAction} {w : Nat} {a : String}
    (ha : a ∈ weekAuthors raw w) : 1 ≤ activityOf raw a w := by
  obtain ⟨r, hr, hw, hauth⟩ := mem_weekAuthors ha
  have hmem : r ∈ actionsOfWeek raw w := by
    unfold actionsOfWeek
    rw [List.mem_filter, decide_eq_true_eq]
    exact ⟨hr, hw⟩
  unfold activityOf postsOf commentsOf
  by_cases hp : r.isPost
  · have hm : r ∈ (actionsOfWeek raw w).filter
        (fun r => decide (r.author = a) && r.isPost) := by
      rw [List.mem_filter]
      refine ⟨hmem, ?_⟩
      simp [hauth, hp]
    have := List.length_pos_of_mem hm
    omega
  · have hm : r ∈ (actionsOfWeek raw w).filter
        (fun r => decide (r.author = a) && !r.isPost) := by
      rw [List.mem_filter]
      refine ⟨hmem, ?_⟩
      simp [hauth, hp]
    have := List.length_pos_of_mem hm
    omega

theorem countP_partition5 {α : Type} (p1 p2 p3 p4 p5 : α → Bool) (l : List α)
    (h : ∀ a ∈ l, (if p1 a then 1 else 0) + (if p2 a then 1 else 0) +
      (if p3 a then 1 else 0) + (if p4 a then 1 else 0) +
      (if p5 a then 1 else 0) = 1) :
    l.countP p1 + l.countP p2 + l.countP p3 + l.countP p4 + l.countP p5 =
      l.length := by
  induction l with
  | nil => simp
  | cons a t ih =>
    have ha := h a (List.mem_cons_self a t)
    have ht := ih (fun x hx => h x (List.mem_cons_of_mem a hx))
    simp only [List.countP_cons, List.length_cons]
    omega

theorem length_le_sum_map {α : Type} (l : List α) (f : α → Nat)
    (h : ∀ a ∈ l, 1 ≤ f a) : l.length ≤ (l.map f).sum := by
  induction l with
  | nil => simp
  | cons a t ih =>
    have ha := h a (List.mem_cons_self a t)
    have ht := ih (fun x hx => h x (List.mem_cons_of_mem a hx))
    simp only [List.map_cons, List.sum_cons, List.length_cons]
    omega

theorem sum_map_add {α : Type} (l : List α) (f g : α → Nat) :
    (l.map (fun a => f a + g a)).sum = (l.map f).sum + (l.map g).sum := by
  induction l with
  | nil => simp
  | cons a t ih =>
    simp only [List.map_cons, List.sum_cons, ih]
    omega

/-! ## Claim theorems -/

/-- C8: running the yearly aggregation and the keyed upsert twice on
identical raw input leaves the store in the same state as running it
once: the aggregation is a pure function of the raw event range and the
upsert replaces on the (year, week) key. -/
theorem c8_aggregate_upsert_idempotent (s : Store) (year : Nat)
    (raw : List RawAction) :
    saveToDatabase (saveToDatabase s (fetchWeeklyStats year raw))
        (fetchWeeklyStats year raw) =
      saveToDatabase s (fetchWeeklyStats year raw) := by
  funext k
  rw [saveToDatabase_apply, saveToDatabase_apply]
  cases h : findLastKey (fetchWeeklyStats year raw) k <;> simp

/-- C3: in every row produced by the yearly aggregation, the five tier
counts partition the distinct active users of the week: accounts with no
action that week are in no tier and not in the user count. -/
theorem c3_tier_partition (year : Nat) (raw : List RawAction)
    (row : WeeklyStats) (hrow : row ∈ fetchWeeklyStats year raw) :
    row.ultra_active_users + row.very_active_users + row.active_users +
      row.occasional_users + row.low_activity_users = row.total_users := by
  unfold fetchWeeklyStats at hrow
  rw [List.mem_map] at hrow
  obtain ⟨w, hw, hroweq⟩ := hrow
  subst hroweq
  show ((weekAuthors raw w).filter _).length +
      ((weekAuthors raw w).filter _).length +
      ((weekAuthors raw w).filter _).length +
      ((weekAuthors raw w).filter _).length +
      ((weekAuthors raw w).filter _).length = (weekAuthors raw w).length
  rw [← List.countP_eq_length_filter, ← List.countP_eq_length_filter,
    ← List.countP_eq_length_filter, ← List.countP_eq_length_filter,
    ← List.countP_eq_length_filter]
  apply countP_partition5
  intro a ha
  have hn := one_le_activityOf ha
  simp only [decide_eq_true_eq]
  split_ifs <;> omega

/-- C10: every row produced by the yearly aggregation counts at least one
user, its user count is at most the total action count of the week, and
its week had at least one in-range action (a week with no action yields
no row). -/
theorem c10_no_empty_rows (year : Nat) (raw : List RawAction)
    (row : WeeklyStats) (hrow : row ∈ fetchWeeklyStats year raw) :
    1 ≤ row.total_users ∧
      row.total_users ≤ row.total_posts + row.total_comments ∧
      ∃ r ∈ raw, r.week = row.week := by
  unfold fetchWeeklyStats at hrow
  rw [List.mem_map] at hrow
  obtain ⟨w, hw, hroweq⟩ := hrow
  subst hroweq
  have hwmem : ∃ r ∈ raw, r.week = w := by
    unfold weeksOf at hw
    rw [List.mem_insertionSort, List.mem_dedup, List.mem_map] at hw
    obtain ⟨r, hr, hrw⟩ := hw
    exact ⟨r, hr, hrw⟩
  obtain ⟨r, hr, hrw⟩ := hwmem
  have hauth : r.author ∈ weekAuthors raw w := by
    unfold weekAuthors
    rw [List.mem_dedup, List.mem_map]
    refine ⟨r, ?_, rfl⟩
    unfold actionsOfWeek
    rw [List.mem_filter, decide_eq_true_eq]
    exact ⟨hr, hrw⟩
  have hlen : 1 ≤ (weekAuthors raw w).length := List.length_pos_of_mem hauth
  refine ⟨hlen, ?_, ⟨r, hr, hrw⟩⟩
  show (weekAuthors raw w).length ≤
    ((weekAuthors raw w).map (fun a => postsOf raw a w)).sum +
      ((weekAuthors raw w).map (fun a => commentsOf raw a w)).sum
  rw [← sum_map_add]
  exact length_le_sum_map _ _ (fun a ha => one_le_activityOf ha)

/-- Witness for C3 at a concrete one-action input. -/
theorem c3_tier_partition_witness :
    (⟨2021, 1, ⟨2021, 0⟩, 1, 1, 0, 0, 0, 0, 0, 1⟩ : WeeklyStats) ∈
        fetchWeeklyStats 2021 [⟨"alice", 1, true⟩] ∧
      (⟨2021, 1, ⟨2021, 0⟩, 1, 1, 0, 0, 0, 0, 0, 1⟩ : WeeklyStats).ultra_active_users +
          (⟨2021, 1, ⟨2021, 0⟩, 1, 1, 0, 0, 0, 0, 0, 1⟩ : WeeklyStats).very_active_users +
          (⟨2021, 1, ⟨2021, 0⟩, 1, 1, 0, 0, 0, 0, 0, 1⟩ : WeeklyStats).active_users +
          (⟨2021, 1, ⟨2021, 0⟩, 1, 1, 0, 0, 0, 0, 0, 1⟩ : WeeklyStats).occasional_users +
          (⟨2021, 1, ⟨2021, 0⟩, 1, 1, 0, 0, 0, 0, 0, 1⟩ : WeeklyStats).low_activity_users =
        (⟨2021, 1, ⟨2021, 0⟩, 1, 1, 0, 0, 0, 0, 0, 1⟩ : WeeklyStats).total_users :=
  ⟨by decide, c3_tier_partition 2021 [⟨"alice", 1, true⟩] _ (by decide)⟩

theorem keyLe_refl (k : Nat × Nat) : keyLe k k := by
  unfold keyLe; omega

theorem keyLt_irrefl (k : Nat × Nat) : ¬ keyLt k k := by
  unfold keyLt; omega

theorem keyLe_of_keyLt {k1 k2 : Nat × Nat} (h : keyLt k1 k2) : keyLe k1 k2 := by
  unfold keyLt at h; unfold keyLe; omega

theorem keyLt_of_le_ne {k1 k2 : Nat × Nat} (h : keyLe k1 k2) (hne : k1 ≠ k2) :
    keyLt k1 k2 := by
  obtain ⟨a, b⟩ := k1
  obtain ⟨c, d⟩ := k2
  simp only [ne_eq, Prod.mk.injEq, not_and] at hne
  unfold keyLe at h; unfold keyLt
  simp only at h ⊢
  by_cases hac : a = c
  · subst hac
    have := hne rfl
    omega
  · omega

theorem not_keyLt_of_keyLe {k1 k2 : Nat × Nat} (h : keyLe k1 k2) :
    ¬ keyLt k2 k1 := by
  unfold keyLe at h; unfold keyLt; omega

/-- C6: with fewer than two stored rows, the last-complete-week lookup
yields no row, so the request fails instead of returning the only row;
with at least two rows of pairwise distinct (year, week) keys, it returns
a stored row with exactly one strictly more recent key, that is, the
second-most-recent row by (year, week). -/
theorem c6_last_complete_week (store : List WeeklyStats)
    (hkeys : store.Pairwise (fun a b => keyOf a ≠ keyOf b)) :
    (store.length < 2 → lastCompleteWeek store = none) ∧
      (2 ≤ store.length → ∃ r, lastCompleteWeek store = some r ∧ r ∈ store ∧
        (store.filter (fun x => decide (keyLt (keyOf r) (keyOf x)))).length = 1) := by
  have hperm : List.Perm (List.insertionSort rowGE store) store :=
    List.perm_insertionSort rowGE store
  have hsort : List.Sorted rowGE (List.insertionSort rowGE store) :=
    List.sorted_insertionSort rowGE store
  have hlen : (List.insertionSort rowGE store).length = store.length :=
    hperm.length_eq
  have hpair : List.Pairwise (fun a b => keyOf a ≠ keyOf b)
      (List.insertionSort rowGE store) := by
    rw [List.Perm.pairwise_iff (fun {_ _} h => Ne.symm h) hperm]
    exact hkeys
  constructor
  · intro hlt
    unfold lastCompleteWeek
    have : (List.insertionSort rowGE store).drop 1 = [] := by
      apply List.drop_eq_nil_of_le
      omega
    rw [this]
    rfl
  · intro hge
    cases hs : List.insertionSort rowGE store with
    | nil =>
      rw [hs] at hlen
      simp at hlen
      omega
    | cons a s1 =>
      cases hs1 : s1 with
      | nil =>
        rw [hs, hs1] at hlen
        simp at hlen
        omega
      | cons b t =>
        subst hs1
        refine ⟨b, ?_, ?_, ?_⟩
        · unfold lastCompleteWeek
          rw [hs]
          rfl
        · rw [← hperm.mem_iff, hs]
          simp
        · rw [hs] at hsort hpair
          rw [List.sorted_cons] at hsort
          have hab : rowGE a b := hsort.1 b (List.mem_cons_self b t)
          have hbt : ∀ x ∈ t, rowGE b x :=
            fun x hx => (List.sorted_cons.mp hsort.2).1 x hx
          rw [List.pairwise_cons] at hpair
          have hne : keyOf a ≠ keyOf b :=
            hpair.1 b (List.mem_cons_self b t)
          have hcount : ((a :: b :: t).filter
              (fun x => decide (keyLt (keyOf b) (keyOf x)))).length = 1 := by
            have hpa : decide (keyLt (keyOf b) (keyOf a)) = true := by
              rw [decide_eq_true_eq]
              exact keyLt_of_le_ne hab (Ne.symm hne)
            have hpb : decide (keyLt (keyOf b) (keyOf b)) = false := by
              rw [decide_eq_false_iff_not]
              exact keyLt_irrefl _
            have hpt : t.filter (fun x => decide (keyLt (keyOf b) (keyOf x))) = [] := by
              rw [List.filter_eq_nil_iff]
              intro x hx
              simp only [decide_eq_true_eq]
              exact not_keyLt_of_keyLe (hbt x hx)
            simp only [List.filter_cons, hpa, hpb, hpt]
            rfl
          calc (store.filter (fun x => decide (keyLt (keyOf b) (keyOf x)))).length
              = ((a :: b :: t).filter
                  (fun x => decide (keyLt (keyOf b) (keyOf x)))).length := by
                rw [← hs]
                exact (List.Perm.filter _ hperm).length_eq.symm
            _ = 1 := hcount

/-- The fold keeping the first maximum splits its input around its result:
everything before the result is strictly smaller, everything after is no
larger. -/
theorem peakGo_split (l : List WeeklyStats) :
    ∀ b : WeeklyStats, ∃ l1 l2, b :: l = l1 ++ peakGo b l :: l2 ∧
      (∀ x ∈ l1, x.total_users < (peakGo b l).total_users) ∧
      (∀ x ∈ l2, x.total_users ≤ (peakGo b l).total_users) := by
  induction l with
  | nil =>
    intro b
    exact ⟨[], [], rfl, by simp, by simp⟩
  | cons c t ih =>
    intro b
    by_cases h : b.total_users < c.total_users
    · have hgo : peakGo b (c :: t) = peakGo c t := by
        simp only [peakGo, if_pos h]
      rw [hgo]
      obtain ⟨l1, l2, heq, h1, h2⟩ := ih c
      cases l1 with
      | nil =>
        simp only [List.nil_append] at heq
        have hc : c = peakGo c t := (List.cons.injEq _ _ _ _).mp heq |>.1
        have ht : t = l2 := (List.cons.injEq _ _ _ _).mp heq |>.2
        refine ⟨[b], l2, ?_, ?_, h2⟩
        · simp only [List.cons_append, List.nil_append]
          rw [← heq]
        · intro x hx
          simp only [List.mem_singleton] at hx
          subst hx
          rw [← hc]
          exact h
      | cons a1 t1 =>
        simp only [List.cons_append] at heq
        have hc : c = a1 := (List.cons.injEq _ _ _ _).mp heq |>.1
        have ht : t = t1 ++ peakGo c t :: l2 := (List.cons.injEq _ _ _ _).mp heq |>.2
        refine ⟨b :: a1 :: t1, l2, ?_, ?_, h2⟩
        · simp only [List.cons_append]
          rw [← hc, ← ht]
        · intro x hx
          rcases List.mem_cons.mp hx with hxb | hx1
          · subst hxb
            have hcpeak : c.total_users < (peakGo c t).total_users := by
              apply h1
              rw [hc]
              exact List.mem_cons_self a1 t1
            omega
          · exact h1 x hx1
    · have hgo : peakGo b (c :: t) = peakGo b t := by
        simp only [peakGo, if_neg h]
      rw [hgo]
      obtain ⟨l1, l2, heq, h1, h2⟩ := ih b
      cases l1 with
      | nil =>
        simp only [List.nil_append] at heq
        have hb : b = peakGo b t := (List.cons.injEq _ _ _ _).mp heq |>.1
        have ht : t = l2 := (List.cons.injEq _ _ _ _).mp heq |>.2
        refine ⟨[], c :: l2, ?_, by simp, ?_⟩
        · simp only [List.nil_append]
          rw [← hb, ht]
        · intro x hx
          rcases List.mem_cons.mp hx with hxc | hx2
          · subst hxc
            rw [← hb]
            omega
          · exact h2 x hx2
      | cons a1 t1 =>
        simp only [List.cons_append] at heq
        have hb : b = a1 := (List.cons.injEq _ _ _ _).mp heq |>.1
        have ht : t = t1 ++ peakGo b t :: l2 := (List.cons.injEq _ _ _ _).mp heq |>.2
        refine ⟨b :: c :: t1, l2, ?_, ?_, h2⟩
        · simp only [List.cons_append]
          rw [← ht]
        · intro x hx
          have hbpeak : b.total_users < (peakGo b t).total_users := by
            apply h1
            rw [hb]
            exact List.mem_cons_self a1 t1
          rcases List.mem_cons.mp hx with hxb | hx1
          · subst hxb
            exact hbpeak
          · rcases List.mem_cons.mp hx1 with hxc | hxt
            · subst hxc
              omega
            · exact h1 x (List.mem_cons_of_mem a1 hxt)

/-- C7: on a store scanned in ascending (year, week) order, the peak-users
query returns a stored row of maximal total_users, and among rows tying
for the maximum it is the earliest week: its key is no later than that of
any other row attaining the maximum. -/
theorem c7_peak_earliest_tie (store : List WeeklyStats) (hne : store ≠ [])
    (hsorted : store.Pairwise (fun a b => keyLt (keyOf a) (keyOf b))) :
    ∃ r, peakRow store = some r ∧ r ∈ store ∧
      (∀ x ∈ store, x.total_users ≤ r.total_users) ∧
      (∀ x ∈ store, x.total_users = r.total_users → keyLe (keyOf r) (keyOf x)) := by
  cases store with
  | nil => exact absurd rfl hne
  | cons a l =>
    obtain ⟨l1, l2, heq, h1, h2⟩ := peakGo_split l a
    refine ⟨peakGo a l, rfl, ?_, ?_, ?_⟩
    · rw [heq]
      exact List.mem_append_right l1 (List.mem_cons_self _ l2)
    · intro x hx
      rw [heq] at hx
      rcases List.mem_append.mp hx with hx1 | hx2
      · exact Nat.le_of_lt (h1 x hx1)
      · rcases List.mem_cons.mp hx2 with hxr | hx2
        · rw [hxr]
        · exact h2 x hx2
    · intro x hx hxeq
      rw [heq] at hx hsorted
      rcases List.mem_append.mp hx with hx1 | hx2
      · exact absurd hxeq (Nat.ne_of_lt (h1 x hx1))
      · rcases List.mem_cons.mp hx2 with hxr | hx2
        · rw [hxr]
          exact keyLe_refl _
        · have := (List.pairwise_append.mp hsorted).2.1
          rw [List.pairwise_cons] at this
          exact keyLe_of_keyLt (this.1 x hx2)

/-- Concrete three-week store of the specification scenario for the
last-complete-week lookup: totals 100, 150, 120. -/
def wit6Store : List WeeklyStats :=
  [⟨2023, 1, ⟨2023, 0⟩, 100, 0, 0, 0, 0, 0, 0, 0⟩,
   ⟨2023, 2, ⟨2023, 7⟩, 150, 0, 0, 0, 0, 0, 0, 0⟩,
   ⟨2023, 3, ⟨2023, 14⟩, 120, 0, 0, 0, 0, 0, 0, 0⟩]

/-- Witness for C6 at the concrete three-week store; the returned row is
the one with 150 users. -/
theorem c6_last_complete_week_witness :
    List.Pairwise (fun a b => keyOf a ≠ keyOf b) wit6Store ∧
      ((wit6Store.length < 2 → lastCompleteWeek wit6Store = none) ∧
        (2 ≤ wit6Store.length → ∃ r, lastCompleteWeek wit6Store = some r ∧
          r ∈ wit6Store ∧
          (wit6Store.filter
            (fun x => decide (keyLt (keyOf r) (keyOf x)))).length = 1)) :=
  ⟨by decide, c6_last_complete_week wit6Store (by decide)⟩

/-- Concrete two-week store with a tie in total_users for the peak query. -/
def wit7Store : List WeeklyStats :=
  [⟨2021, 1, ⟨2021, 0⟩, 50, 0, 0, 0, 0, 0, 0, 0⟩,
   ⟨2021, 2, ⟨2021, 7⟩, 50, 0, 0, 0, 0, 0, 0, 0⟩]

/-- Witness for C7 at the concrete tied store; the peak row is week 1. -/
theorem c7_peak_earliest_tie_witness :
    wit7Store ≠ [] ∧
      List.Pairwise (fun a b => keyLt (keyOf a) (keyOf b)) wit7Store ∧
      (∃ r, peakRow wit7Store = some r ∧ r ∈ wit7Store ∧
        (∀ x ∈ wit7Store, x.total_users ≤ r.total_users) ∧
        (∀ x ∈ wit7Store, x.total_users = r.total_users →
          keyLe (keyOf r) (keyOf x))) :=
  ⟨by decide, by decide, c7_peak_earliest_tie wit7Store (by decide) (by decide)⟩

/-- C5 counterexample: on an empty store the grand total is 0 and every
tier percentage computes 0/0, which is NaN, not the 0 the claim states. -/
theorem c5_empty_distribution_counterexample :
    activityDistribution [] =
        ⟨JSNum.nan, JSNum.nan, JSNum.nan, JSNum.nan, JSNum.nan⟩ ∧
      grandTotal (tierSums []) = 0 ∧ JSNum.nan ≠ JSNum.num 0 := by
  refine ⟨by decide, by decide, by decide⟩

/-- C5 as amended: each tier percentage is the tier sum over the grand
total of the five tier sums, times 100, rounded to one decimal, whenever
the grand total is nonzero; when the grand total is 0 every tier
percentage is NaN (0/0), not 0. -/
theorem c5_distribution_amended (rows : List WeeklyStats) :
    activityDistribution rows =
      (if grandTotal (tierSums rows) = 0 then
        ⟨JSNum.nan, JSNum.nan, JSNum.nan, JSNum.nan, JSNum.nan⟩
      else
        ⟨JSNum.num (round1 (((tierSums rows).ultra : ℚ) /
            ((grandTotal (tierSums rows) : ℚ)) * 100)),
          JSNum.num (round1 (((tierSums rows).very : ℚ) /
            ((grandTotal (tierSums rows) : ℚ)) * 100)),
          JSNum.num (round1 (((tierSums rows).active : ℚ) /
            ((grandTotal (tierSums rows) : ℚ)) * 100)),
          JSNum.num (round1 (((tierSums rows).occasional : ℚ) /
            ((grandTotal (tierSums rows) : ℚ)) * 100)),
          JSNum.num (round1 (((tierSums rows).low : ℚ) /
            ((grandTotal (tierSums rows) : ℚ)) * 100))⟩) := by
  by_cases h : grandTotal (tierSums rows) = 0
  · rw [if_pos h]
    have h5 : (tierSums rows).ultra = 0 ∧ (tierSums rows).very = 0 ∧
        (tierSums rows).active = 0 ∧ (tierSums rows).occasional = 0 ∧
        (tierSums rows).low = 0 := by
      unfold grandTotal at h
      omega
    obtain ⟨e1, e2, e3, e4, e5⟩ := h5
    have f1 : (((tierSums rows).ultra : ℚ)) = 0 := by exact_mod_cast e1
    have f2 : (((tierSums rows).very : ℚ)) = 0 := by exact_mod_cast e2
    have f3 : (((tierSums rows).active : ℚ)) = 0 := by exact_mod_cast e3
    have f4 : (((tierSums rows).occasional : ℚ)) = 0 := by exact_mod_cast e4
    have f5 : (((tierSums rows).low : ℚ)) = 0 := by exact_mod_cast e5
    have h0 : ((grandTotal (tierSums rows) : ℚ)) = 0 := by exact_mod_cast h
    simp [activityDistribution, tierPct, jsDivQ, jsMul100, jsToFixed1,
      h0, f1, f2, f3, f4, f5]
  · rw [if_neg h]
    have hq : ((grandTotal (tierSums rows) : ℚ)) ≠ 0 := by
      exact_mod_cast h
    simp [activityDistribution, tierPct, jsDivQ, jsMul100, jsToFixed1, hq]

theorem yoyAux_length (store : List WeeklyStats) (ph : List PricePoint) :
    ∀ (ys : List Nat) (p : Option ℚ), (yoyAux store ph p ys).length = ys.length
  | [], _ => rfl
  | y :: t, p => by
    show (yoyAux store ph (some (avgUsersOfYear store y)) t).length + 1 = t.length + 1
    rw [yoyAux_length store ph t]

theorem yoyAux_year (store : List WeeklyStats) (ph : List PricePoint) :
    ∀ (ys : List Nat) (p : Option ℚ) (j : Nat) (h : j < ys.length),
      ((yoyAux store ph p ys).get
          ⟨j, by rw [yoyAux_length]; exact h⟩).year = ys.get ⟨j, h⟩
  | y :: t, p, 0, h => rfl
  | y :: t, p, j + 1, h => by
    have ht : j < t.length := by
      simp only [List.length_cons] at h
      omega
    have := yoyAux_year store ph t (some (avgUsersOfYear store y)) j ht
    simpa using this

theorem yoyAux_changePercent_succ (store : List WeeklyStats)
    (ph : List PricePoint) :
    ∀ (ys : List Nat) (p : Option ℚ) (i : Nat) (h : i + 1 < ys.length),
      ((yoyAux store ph p ys).get
          ⟨i + 1, by rw [yoyAux_length]; exact h⟩).changePercent =
        changePercent
          (some (avgUsersOfYear store (ys.get ⟨i, by omega⟩)))
          (avgUsersOfYear store (ys.get ⟨i + 1, h⟩))
  | y :: t, p, 0, h => by
    cases t with
    | nil => simp at h
    | cons y2 t2 => rfl
  | y :: t, p, i + 1, h => by
    have ht : i + 1 < t.length := by
      simp only [List.length_cons] at h
      omega
    have := yoyAux_changePercent_succ store ph t
      (some (avgUsersOfYear store y)) i ht
    simpa using this

theorem changePercent_none (cur : ℚ) : changePercent none cur = none := rfl

theorem yoyAux_changePercent_zero (store : List WeeklyStats)
    (ph : List PricePoint) :
    ∀ (ys : List Nat) (p : Option ℚ) (h : 0 < ys.length),
      ((yoyAux store ph p ys).get
          ⟨0, by rw [yoyAux_length]; exact h⟩).changePercent =
        changePercent p (avgUsersOfYear store (ys.get ⟨0, h⟩))
  | _ :: _, _, _ => rfl

theorem changePercent_self (a : ℚ) : changePercent (some a) a = none := by
  unfold changePercent jsDivQ jsMul100 jsTruthy
  by_cases ha : a = 0
  · subst ha
    simp
  · simp [sub_self, ha]

/-- C9: when the raw average weekly users of a year equals that of the
prior year, the computed change is 0, which is falsy, so the reported
changePercent of that year is null, exactly as for the first year in the
series: the two cases are indistinguishable in the view. -/
theorem c9_zero_change_reported_absent (store : List WeeklyStats)
    (ph : List PricePoint) (i : Nat)
    (h1 : i + 1 < (yearOverYear store ph).length)
    (heq : avgUsersOfYear store
        (((yearOverYear store ph).get ⟨i, Nat.lt_of_succ_lt h1⟩).year) =
      avgUsersOfYear store
        (((yearOverYear store ph).get ⟨i + 1, h1⟩).year)) :
    ((yearOverYear store ph).get ⟨i + 1, h1⟩).changePercent = none ∧
      ∀ (h0 : 0 < (yearOverYear store ph).length),
        ((yearOverYear store ph).get ⟨0, h0⟩).changePercent = none := by
  have hlen : (yearOverYear store ph).length = (yearsOf store).length :=
    yoyAux_length store ph (yearsOf store) none
  have hys : i + 1 < (yearsOf store).length := by
    rw [← hlen]
    exact h1
  unfold yearOverYear at heq
  constructor
  · have hcp := yoyAux_changePercent_succ store ph (yearsOf store) none i hys
    have hy1 := yoyAux_year store ph (yearsOf store) none i (by omega)
    have hy2 := yoyAux_year store ph (yearsOf store) none (i + 1) hys
    rw [hy1, hy2] at heq
    show ((yoyAux store ph none (yearsOf store)).get ⟨i + 1, _⟩).changePercent = none
    rw [hcp, ← heq]
    exact changePercent_self _
  · intro h0
    have hys0 : 0 < (yearsOf store).length := by
      rw [← hlen]
      exact h0
    have := yoyAux_changePercent_zero store ph (yearsOf store) none hys0
    show ((yoyAux store ph none (yearsOf store)).get ⟨0, _⟩).changePercent = none
    rw [this]
    exact changePercent_none _

/-- Concrete store with two years whose raw average weekly users are both
20 (year 2018: weeks of 10 and 30 users; year 2019: one week of 20). -/
def wit9Store : List WeeklyStats :=
  [⟨2018, 1, ⟨2018, 0⟩, 10, 0, 0, 0, 0, 0, 0, 0⟩,
   ⟨2018, 2, ⟨2018, 7⟩, 30, 0, 0, 0, 0, 0, 0, 0⟩,
   ⟨2019, 1, ⟨2019, 0⟩, 20, 0, 0, 0, 0, 0, 0, 0⟩]

/-- Witness for C9 at the concrete equal-average store. -/
theorem c9_zero_change_reported_absent_witness :
    (avgUsersOfYear wit9Store
        (((yearOverYear wit9Store []).get ⟨0, by decide⟩).year) =
      avgUsersOfYear wit9Store
        (((yearOverYear wit9Store []).get ⟨0 + 1, by decide⟩).year)) ∧
      (((yearOverYear wit9Store []).get ⟨0 + 1, by decide⟩).changePercent =
          none ∧
        ∀ (h0 : 0 < (yearOverYear wit9Store []).length),
          ((yearOverYear wit9Store []).get ⟨0, h0⟩).changePercent = none) :=
  ⟨by
    simp [yearOverYear, yearsOf, yoyAux, mkYoYRow, avgUsersOfYear,
      weeksOfYear, wit9Store, List.insertionSort, List.orderedInsert]
    norm_num,
    c9_zero_change_reported_absent wit9Store [] 0 (by decide) (by
      simp [yearOverYear, yearsOf, yoyAux, mkYoYRow, avgUsersOfYear,
        weeksOfYear, wit9Store, List.insertionSort, List.orderedInsert]
      norm_num)⟩

/-- The changePercent entries of the year-over-year view, as a zip of each
year with the average of its predecessor. -/
theorem yoyAux_map_changePercent (store : List WeeklyStats)
    (ph : List PricePoint) :
    ∀ (ys : List Nat) (p : Option ℚ),
      (yoyAux store ph p ys).map (fun r => r.changePercent) =
        (ys.zip (p :: ys.map (fun y => some (avgUsersOfYear store y)))).map
          (fun z => changePercent z.2 (avgUsersOfYear store z.1))
  | [], _ => rfl
  | y :: t, p => by
    show changePercent p (avgUsersOfYear store y) ::
        (yoyAux store ph (some (avgUsersOfYear store y)) t).map
          (fun r => r.changePercent) = _
    rw [yoyAux_map_changePercent store ph t (some (avgUsersOfYear store y))]
    rfl

/-- Concrete store with two years of identical averages: one week of 100
users in 2020 and one week of 100 users in 2021. -/
def cex2Store : List WeeklyStats :=
  [⟨2020, 1, ⟨2020, 0⟩, 100, 0, 0, 0, 0, 0, 0, 0⟩,
   ⟨2021, 1, ⟨2021, 0⟩, 100, 0, 0, 0, 0, 0, 0, 0⟩]

/-- C2 counterexample: for the second year the prior-year average is 100,
nonzero, and the year is not the first of the series, so the claim says
changePercent must be present and equal to 0; the code reports null,
because the computed 0 fails the truthiness check. -/
theorem c2_zero_change_counterexample :
    (yearOverYear cex2Store []).map (fun r => (r.year, r.changePercent)) =
        [(2020, none), (2021, none)] ∧
      avgUsersOfYear cex2Store 2020 = 100 ∧
      avgUsersOfYear cex2Store 2021 = 100 := by
  refine ⟨?_, ?_, ?_⟩ <;>
    simp [yearOverYear, yearsOf, yoyAux, mkYoYRow, changePercent, jsDivQ,
      jsMul100, jsTruthy, jsToFixed1, round1, avgUsersOfYear, weeksOfYear,
      avgPriceOfYearCode, cex2Store, List.insertionSort, List.orderedInsert]

/-- C2 as amended: changePercent for year Y with predecessor average p and
own average cur is the rounded value of (cur - p) / p * 100 when that
value is nonzero and p is nonzero; it is absent for the first year of the
series, absent when the computed change is exactly 0 (equal averages),
absent when both averages are 0 (NaN); and when p = 0 with cur nonzero it
is a signed Infinity, not absent: the zero division propagates. -/
theorem c2_change_percent_amended (store : List WeeklyStats)
    (ph : List PricePoint) :
    ((yearOverYear store ph).map (fun r => r.changePercent) =
        ((yearsOf store).zip (none :: (yearsOf store).map
            (fun y => some (avgUsersOfYear store y)))).map
          (fun z => changePercent z.2 (avgUsersOfYear store z.1))) ∧
      (∀ cur : ℚ, changePercent none cur = none) ∧
      (∀ p cur : ℚ, changePercent (some p) cur =
        if p = 0 then
          (if cur = 0 then none else some (JSNum.inf (decide (0 < cur))))
        else if cur = p then none
        else some (JSNum.num (round1 ((cur - p) / p * 100)))) := by
  refine ⟨yoyAux_map_changePercent store ph (yearsOf store) none,
    fun cur => rfl, fun p cur => ?_⟩
  unfold changePercent
  by_cases hp : p = 0
  · subst hp
    rw [if_pos rfl]
    by_cases hc : cur = 0
    · subst hc
      simp [jsDivQ, jsMul100, jsTruthy]
    · simp [jsDivQ, jsMul100, jsTruthy, jsToFixed1, hc, sub_zero]
  · rw [if_neg hp]
    by_cases hcp : cur = p
    · subst hcp
      simp [jsDivQ, jsMul100, jsTruthy, hp]
    · have hsub : cur - p ≠ 0 := sub_ne_zero_of_ne hcp
      have hval : (cur - p) / p * 100 ≠ 0 := by
        intro h0
        rcases mul_eq_zero.mp h0 with hdiv | h100
        · exact hsub (by
            rcases div_eq_zero_iff.mp hdiv with ha | hb
            · exact ha
            · exact absurd hb hp)
        · norm_num at h100
      simp [jsDivQ, jsMul100, jsTruthy, jsToFixed1, hp, hval, if_neg hcp]

/-- Concrete store with one week of 2021, starting day 10 of the year. -/
def cex1Store : List WeeklyStats :=
  [⟨2021, 1, ⟨2021, 10⟩, 5, 0, 0, 0, 0, 0, 0, 0⟩]

/-- Concrete price history: a hive point inside the stored week (price 2)
and a steem point elsewhere in 2021 (price 10). -/
def cex1Prices : List PricePoint :=
  [⟨⟨2021, 11⟩, Coin.hive, 2⟩, ⟨⟨2021, 100⟩, Coin.steem, 10⟩]

/-- C1 counterexample: the year 2021 view reports avgPrice 6, the plain
average of every 2021 price point of both coins, while the mean of the
per-week window averages under the coin cutover policy (hive only, window
only) is 2; the claimed equality fails. -/
theorem c1_avg_price_counterexample :
    (yearOverYear cex1Store cex1Prices).map (fun r => (r.year, r.avgPrice)) =
        [(2021, some 6)] ∧
      specYearAvgPriceMeanOfMeans cex1Store cex1Prices 2021 = some 2 ∧
      (some (6 : ℚ) ≠ some (2 : ℚ)) := by
  refine ⟨?_, ?_, by norm_num⟩
  · simp [yearOverYear, yearsOf, yoyAux, mkYoYRow, avgPriceOfYearCode, round4,
      changePercent, avgUsersOfYear, weeksOfYear, postsOfYear, commentsOfYear,
      cex1Store, cex1Prices, List.insertionSort, List.orderedInsert]
    norm_num [round_eq]
  · simp [specYearAvgPriceMeanOfMeans, weeksOfYear, averagePriceInWindow,
      coinFor, addDays7, dateLe, dateLt, daysInYear, cex1Store, cex1Prices]

theorem yoyAux_avgPrice_of_mem (store : List WeeklyStats)
    (ph : List PricePoint) :
    ∀ (ys : List Nat) (p : Option ℚ) (r : YoYRow), r ∈ yoyAux store ph p ys →
      r.avgPrice = avgPriceOfYearCode ph r.year
  | [], _, r, hr => absurd hr (List.not_mem_nil r)
  | y :: t, p, r, hr => by
    rcases List.mem_cons.mp hr with h | h
    · subst h
      rfl
    · exact yoyAux_avgPrice_of_mem store ph t _ r h

/-- C1 as amended: for every year of the year-over-year view, the reported
avgPrice is the arithmetic mean of every stored price point whose date
falls in that calendar year, across both coins, with no per-week
mean-of-means structure, rounded to four decimals; it is absent when the
year has no price points or the mean is exactly 0 (truthiness). -/
theorem c1_avg_price_amended (store : List WeeklyStats) (ph : List PricePoint)
    (r : YoYRow) (hr : r ∈ yearOverYear store ph) :
    r.avgPrice =
      (if (ph.filter (fun p => decide (p.date.year = r.year))).isEmpty then
        none
      else if ((ph.filter (fun p => decide (p.date.year = r.year))).map
            (fun p => p.price)).sum /
          (((ph.filter (fun p => decide (p.date.year = r.year))).length : ℚ))
          = 0 then
        none
      else
        some (round4
          (((ph.filter (fun p => decide (p.date.year = r.year))).map
              (fun p => p.price)).sum /
            (((ph.filter
              (fun p => decide (p.date.year = r.year))).length : ℚ))))) := by
  rw [yoyAux_avgPrice_of_mem store ph (yearsOf store) none r hr]
  unfold avgPriceOfYearCode
  rfl

/-- The single year row of the counterexample inputs. -/
def wit1Row : YoYRow := ⟨2021, 5, some 6, 0, 0, none⟩

/-- Witness for the amended C1 at the concrete counterexample inputs. -/
theorem c1_avg_price_amended_witness :
    wit1Row ∈ yearOverYear cex1Store cex1Prices ∧
      wit1Row.avgPrice =
        (if (cex1Prices.filter
            (fun p => decide (p.date.year = wit1Row.year))).isEmpty then
          none
        else if ((cex1Prices.filter
              (fun p => decide (p.date.year = wit1Row.year))).map
              (fun p => p.price)).sum /
            (((cex1Prices.filter
              (fun p => decide (p.date.year = wit1Row.year))).length : ℚ))
            = 0 then
          none
        else
          some (round4
            (((cex1Prices.filter
                (fun p => decide (p.date.year = wit1Row.year))).map
                (fun p => p.price)).sum /
              (((cex1Prices.filter
                (fun p =>
                  decide (p.date.year = wit1Row.year))).length : ℚ))))) :=
  ⟨by
    simp [wit1Row, yearOverYear, yearsOf, yoyAux, mkYoYRow, avgPriceOfYearCode,
      round4, changePercent, avgUsersOfYear, weeksOfYear, postsOfYear,
      commentsOfYear, cex1Store, cex1Prices, List.insertionSort,
      List.orderedInsert]
    norm_num [round_eq],
   c1_avg_price_amended cex1Store cex1Prices wit1Row (by
    simp [wit1Row, yearOverYear, yearsOf, yoyAux, mkYoYRow, avgPriceOfYearCode,
      round4, changePercent, avgUsersOfYear, weeksOfYear, postsOfYear,
      commentsOfYear, cex1Store, cex1Prices, List.insertionSort,
      List.orderedInsert]
    norm_num [round_eq])⟩

/-- Cauchy-Schwarz for the correlation: the quantity under the square
root contributed by one vector is never negative. -/
theorem corrDev_nonneg (x : List ℚ) : 0 ≤ corrDev x := by
  induction x with
  | nil => simp [corrDev]
  | cons a t ih =>
    unfold corrDev at ih ⊢
    simp only [List.length_cons, List.map_cons, List.sum_cons, Nat.cast_add,
      Nat.cast_one]
    by_cases ht : t.length = 0
    · have hnil : t = [] := List.length_eq_zero.mp ht
      subst hnil
      simp
    · have hnpos : (0 : ℚ) < (t.length : ℚ) := by
        exact_mod_cast Nat.pos_of_ne_zero ht
      have hprod : (0 : ℚ) ≤ ((t.length : ℚ) + 1) *
          ((t.length : ℚ) * (t.map (fun a => a * a)).sum - t.sum * t.sum) :=
        mul_nonneg (by linarith) ih
      have key : (0 : ℚ) ≤ (t.length : ℚ) *
          (((t.length : ℚ) + 1) * (a * a + (t.map (fun a => a * a)).sum) -
            (a + t.sum) * (a + t.sum)) := by
        nlinarith [hprod, sq_nonneg ((t.length : ℚ) * a - t.sum)]
      nlinarith [key, hnpos]

/-- The code correlation and the specification Pearson formula agree on
equal-length vectors: the zero test on the square root coincides with the
zero test on the radicand because the radicand is never negative. -/
theorem calculateCorrelation_eq_pearsonSpec (x y : List ℚ)
    (hlen : x.length = y.length) :
    calculateCorrelation x y = pearsonSpec x y := by
  by_cases hn : x.length = 0
  · have hx : x = [] := List.length_eq_zero.mp hn
    have hy : y = [] := List.length_eq_zero.mp (by omega)
    subst hx; subst hy
    simp [calculateCorrelation, pearsonSpec, corrDev]
  · unfold calculateCorrelation pearsonSpec
    rw [if_neg (by push_neg; exact ⟨hn, hlen⟩)]
    by_cases hD : corrDev x * corrDev y = 0
    · rw [if_pos hD, hD]
      simp
    · rw [if_neg hD]
      have hDx := corrDev_nonneg x
      have hDy := corrDev_nonneg y
      have hDpos : 0 < corrDev x * corrDev y := by
        rcases lt_or_eq_of_le (mul_nonneg hDx hDy) with h | h
        · exact h
        · exact absurd h.symm hD
      have hsq : Real.sqrt ((corrDev x * corrDev y : ℚ) : ℝ) ≠ 0 := by
        apply ne_of_gt
        apply Real.sqrt_pos.mpr
        exact_mod_cast hDpos
      rw [if_neg hsq]

/-- A defined window average over a store of positive prices is positive,
so the positivity filter of server.ts coincides with presence. -/
theorem averagePriceInWindow_pos {ph : List PricePoint} {ws : Date} {c : Coin}
    {q : ℚ} (hpos : ∀ p ∈ ph, 0 < p.price)
    (h : averagePriceInWindow ph ws c = some q) : 0 < q := by
  unfold averagePriceInWindow at h
  dsimp only at h
  split at h
  · exact absurd h (by simp)
  · rename_i hne
    have hq : ((ph.filter (fun p =>
        decide (dateLe ws p.date) && decide (dateLt p.date (addDays7 ws)) &&
        decide (p.coin = c))).map (fun p => p.price)).sum /
        (((ph.filter (fun p =>
          decide (dateLe ws p.date) && decide (dateLt p.date (addDays7 ws)) &&
          decide (p.coin = c))).length : ℚ)) = q := by
      exact Option.some.inj h
    rw [← hq]
    have hnil : ph.filter (fun p =>
        decide (dateLe ws p.date) && decide (dateLt p.date (addDays7 ws)) &&
        decide (p.coin = c)) ≠ [] := by
      intro hcon
      rw [hcon] at hne
      exact hne rfl
    apply div_pos
    · apply List.sum_pos
      · intro a ha
        rw [List.mem_map] at ha
        obtain ⟨p, hpmem, hpa⟩ := ha
        rw [← hpa]
        exact hpos p (List.mem_filter.mp hpmem).1
      · intro hcon
        rw [List.map_eq_nil_iff] at hcon
        exact hnil hcon
    · have : 0 < (ph.filter (fun p =>
          decide (dateLe ws p.date) && decide (dateLt p.date (addDays7 ws)) &&
          decide (p.coin = c))).length := List.length_pos.mpr hnil
      exact_mod_cast this

/-- C4: over a price store holding only positive prices (the invariant the
price ingestion enforces), the correlation computed by getStats equals the
specification Pearson coefficient taken over exactly the weeks whose price
average exists, and whenever the quantity under the square root is zero
(zero variance in either vector, the empty case included) the correlation
is 0, not an error. -/
theorem c4_pearson_over_existing_price_weeks (store : List WeeklyStats)
    (ph : List PricePoint) (hpos : ∀ p ∈ ph, 0 < p.price) :
    priceUserCorrelation store ph =
      pearsonSpec
        (((getWeeklyStats store ph).filter (fun r => r.2.isSome)).map
          (fun r => r.2.getD 0))
        (((getWeeklyStats store ph).filter (fun r => r.2.isSome)).map
          (fun r => (r.1.total_users : ℚ))) ∧
      (∀ x y : List ℚ, corrDev x * corrDev y = 0 →
        calculateCorrelation x y = 0) := by
  constructor
  · have hfil : dataWithPrice store ph =
        (getWeeklyStats store ph).filter (fun r => r.2.isSome) := by
      unfold dataWithPrice
      apply List.filter_congr
      intro r hr
      have hr2 : ∃ w, r =
          (w, averagePriceInWindow ph w.week_start (coinFor w.year)) := by
        unfold getWeeklyStats at hr
        rw [List.mem_map] at hr
        obtain ⟨w, hw, hrw⟩ := hr
        exact ⟨w, hrw.symm⟩
      obtain ⟨w, rfl⟩ := hr2
      cases hp : averagePriceInWindow ph w.week_start (coinFor w.year) with
      | none => simp [hp]
      | some p =>
        have hppos := averagePriceInWindow_pos hpos hp
        simp [hp, hppos]
    unfold priceUserCorrelation pricesVec usersVec
    rw [hfil]
    apply calculateCorrelation_eq_pearsonSpec
    simp
  · intro x y hD
    unfold calculateCorrelation
    by_cases hg : x.length = 0 ∨ x.length ≠ y.length
    · rw [if_pos hg]
    · rw [if_neg hg, hD]
      simp

/-- Concrete two-week store for the correlation witness. -/
def wit4Store : List WeeklyStats :=
  [⟨2021, 1, ⟨2021, 0⟩, 3, 0, 0, 0, 0, 0, 0, 0⟩,
   ⟨2021, 2, ⟨2021, 7⟩, 5, 0, 0, 0, 0, 0, 0, 0⟩]

/-- Concrete positive price history for the correlation witness. -/
def wit4Prices : List PricePoint :=
  [⟨⟨2021, 1⟩, Coin.hive, 1⟩, ⟨⟨2021, 8⟩, Coin.hive, 2⟩]

/-- Witness for C4 at a concrete positive-price store. -/
theorem c4_pearson_over_existing_price_weeks_witness :
    (∀ p ∈ wit4Prices, 0 < p.price) ∧
      (priceUserCorrelation wit4Store wit4Prices =
        pearsonSpec
          (((getWeeklyStats wit4Store wit4Prices).filter
              (fun r => r.2.isSome)).map (fun r => r.2.getD 0))
          (((getWeeklyStats wit4Store wit4Prices).filter
              (fun r => r.2.isSome)).map
            (fun r => (r.1.total_users : ℚ))) ∧
        (∀ x y : List ℚ, corrDev x * corrDev y = 0 →
          calculateCorrelation x y = 0)) :=
  ⟨by decide,
   c4_pearson_over_existing_price_weeks wit4Store wit4Prices (by decide)⟩

/-- Witness for C10 at a concrete one-comment input. -/
theorem c10_no_empty_rows_witness :
    (⟨2019, 2, ⟨2019, 7⟩, 1, 0, 1, 0, 0, 0, 0, 1⟩ : WeeklyStats) ∈
        fetchWeeklyStats 2019 [⟨"bob", 2, false⟩] ∧
      (1 ≤ (⟨2019, 2, ⟨2019, 7⟩, 1, 0, 1, 0, 0, 0, 0, 1⟩ : WeeklyStats).total_users ∧
        (⟨2019, 2, ⟨2019, 7⟩, 1, 0, 1, 0, 0, 0, 0, 1⟩ : WeeklyStats).total_users ≤
          (⟨2019, 2, ⟨2019, 7⟩, 1, 0, 1, 0, 0, 0, 0, 1⟩ : WeeklyStats).total_posts +
            (⟨2019, 2, ⟨2019, 7⟩, 1, 0, 1, 0, 0, 0, 0, 1⟩ : WeeklyStats).total_comments ∧
        ∃ r ∈ [(⟨"bob", 2, false⟩ : RawAction)],
          r.week = (⟨2019, 2, ⟨2019, 7⟩, 1, 0, 1, 0, 0, 0, 0, 1⟩ : WeeklyStats).week) :=
  ⟨by decide, c10_no_empty_rows 2019 [⟨"bob", 2, false⟩] _ (by decide)⟩
